import Mathlib

/-!
Verification development for the UKP kickball roster application
(`src/app.py`).  The application stores its state in two SQLite tables:

* `game_player_status (game_id, player_name, status IN/OUT, is_substitute,
  kicking_order NULL-able, UNIQUE(game_id, player_name))` — the
  availability ledger;
* `lineup_positions (game_id, inning CHECK(1..7), position, player_name,
  UNIQUE(game_id, inning, position))` — the sparse lineup grid.

All claims are per-game, so the embedding fixes one game: the ledger is a
list of `(player_name, row)` pairs (list order = table row order; the
UNIQUE constraint is carried as a `Nodup` hypothesis where needed) and
the grid is a function from `(inning, position)` to the optional
occupant (a missing cell is `none`, mirroring the sparse representation).
Each mutating UI handler is translated into a function on these states,
following the SQL statements it executes.
-/

/-- The `status` column: `CHECK(status IN ('IN','OUT'))`. -/
inductive PStatus where
  | IN : PStatus
  | OUT : PStatus
  deriving DecidableEq, Repr

/-- One row of `game_player_status` for the fixed game (minus the key). -/
structure Entry where
  status : PStatus
  is_substitute : Bool
  kicking_order : Option Nat
  deriving DecidableEq, Repr

/-- The `game_player_status` rows of one game: `(player_name, row)` pairs. -/
abbrev Ledger : Type := List (String × Entry)

/-- `SELECT ... FROM game_player_status WHERE game_id = ? AND player_name = ?`:
the row of player `p`, if any (the UNIQUE constraint makes it unique). -/
def lookupEntry (s : Ledger) (p : String) : Option Entry :=
  (List.find? (fun pe => pe.1 = p) s).map (fun pe => pe.2)

/-- `SELECT kicking_order FROM game_player_status WHERE ... player_name = ?`. -/
def kickOrder (s : Ledger) (p : String) : Option Nat :=
  (lookupEntry s p).bind (fun e => e.kicking_order)

/-- Whether the game has a row for player `p` (`statuses.get(player)` hit). -/
def hasEntry (s : Ledger) (p : String) : Bool :=
  List.any s (fun pe => pe.1 = p)

/-- `INSERT OR REPLACE INTO game_player_status ... VALUES (?, ?, ...)`:
SQLite deletes any row conflicting on `UNIQUE(game_id, player_name)` and
appends the new row. -/
def insertOrReplace (s : Ledger) (p : String) (e : Entry) : Ledger :=
  List.filter (fun pe => pe.1 ≠ p) s ++ [(p, e)]

/-- `UPDATE game_player_status SET status = ?, kicking_order = ? WHERE
game_id = ? AND player_name = ?` (substitute toggle handlers). -/
def updStatusOrder (s : Ledger) (p : String) (st : PStatus) (o : Option Nat) : Ledger :=
  List.map (fun pe => if pe.1 = p then (pe.1, { pe.2 with status := st, kicking_order := o }) else pe) s

/-- `UPDATE game_player_status SET kicking_order = ? WHERE game_id = ? AND
player_name = ?` (kicking-order init and swap handlers). -/
def setOrder (s : Ledger) (p : String) (o : Option Nat) : Ledger :=
  List.map (fun pe => if pe.1 = p then (pe.1, { pe.2 with kicking_order := o }) else pe) s

/-- `SELECT COALESCE(MAX(kicking_order), 0) FROM game_player_status WHERE
game_id = ? AND status = 'IN'`: SQL `MAX` ignores NULLs and is NULL on an
empty set, so the result is the largest order of an IN row, `0` if no IN
row has an order. -/
def maxOrder (s : Ledger) : Nat :=
  List.foldl
    (fun m pe =>
      if pe.2.status = PStatus.IN then
        match pe.2.kicking_order with
        | some o => Nat.max m o
        | none => m
      else m)
    0 s

/-- The four status-toggle handlers of `app.py`, dispatched the way the UI
dispatches them:
* main roster, to IN (lines 309-318): `INSERT OR REPLACE` with
  `status='IN', is_substitute=0, kicking_order = max+1`;
* main roster, to OUT (lines 293-303): `INSERT OR REPLACE` with
  `status='OUT', is_substitute=0, kicking_order=NULL`;
* substitute, to IN: with no existing row the "Add to Game" handler
  (lines 327-336) INSERTs `('IN', 1, max+1)`; with a row the toggle
  handler (lines 345-353) UPDATEs `status='IN', kicking_order = max+1`;
* substitute, to OUT (lines 339-342): UPDATE `status='OUT',
  kicking_order=NULL`. -/
def set_status (s : Ledger) (p : String) (st : PStatus) (isSub : Bool) : Ledger :=
  match st, isSub with
  | PStatus.IN, false => insertOrReplace s p ⟨PStatus.IN, false, some (maxOrder s + 1)⟩
  | PStatus.OUT, false => insertOrReplace s p ⟨PStatus.OUT, false, none⟩
  | PStatus.IN, true =>
      if hasEntry s p then updStatusOrder s p PStatus.IN (some (maxOrder s + 1))
      else s ++ [(p, ⟨PStatus.IN, true, some (maxOrder s + 1)⟩)]
  | PStatus.OUT, true => updStatusOrder s p PStatus.OUT none

/-- Line 285: `statuses.get(player, {}).get('status', 'IN')` — a main-roster
player with no persisted row is displayed as IN. -/
def displayStatus (s : Ledger) (p : String) : PStatus :=
  match lookupEntry s p with
  | some e => e.status
  | none => PStatus.IN

/-! ### Text ordering

SQLite's default BINARY collation orders TEXT by byte-wise `memcmp` of the
UTF-8 encodings, which coincides with lexicographic comparison of the
code-point sequences.  `String.lt` of core Lean does not reduce in the
kernel, so the comparison is spelled out on `String.data`. -/

/-- Lexicographic (non-strict) comparison of code-point sequences. -/
def clLe : List Char → List Char → Bool
  | [], _ => true
  | _ :: _, [] => false
  | a :: as, b :: bs =>
      if a.toNat < b.toNat then true
      else if b.toNat < a.toNat then false
      else clLe as bs

/-- Lexicographic strict comparison of code-point sequences. -/
def clLt : List Char → List Char → Bool
  | [], [] => false
  | [], _ :: _ => true
  | _ :: _, [] => false
  | a :: as, b :: bs =>
      if a.toNat < b.toNat then true
      else if b.toNat < a.toNat then false
      else clLt as bs

/-- `ORDER BY`-comparison of two player names (BINARY collation). -/
def strLe (a b : String) : Bool := clLe a.data b.data

/-- Strict version of `strLe`. -/
def strLt (a b : String) : Bool := clLt a.data b.data

/-- Line 361: `COALESCE(kicking_order, 999) as order_val`. -/
def orderVal (e : Entry) : Nat :=
  match e.kicking_order with
  | some o => o
  | none => 999

/-- The `ORDER BY order_val, player_name` sort key of an IN row. -/
def rowKey (pe : String × Entry) : Nat × String := (orderVal pe.2, pe.1)

/-- `ORDER BY order_val, player_name`, as a non-strict relation on rows. -/
def rowLE (x y : String × Entry) : Prop :=
  (rowKey x).1 < (rowKey y).1 ∨ ((rowKey x).1 = (rowKey y).1 ∧ strLe (rowKey x).2 (rowKey y).2 = true)

/-- Strict version of `rowLE`. -/
def rowLT (x y : String × Entry) : Prop :=
  (rowKey x).1 < (rowKey y).1 ∨ ((rowKey x).1 = (rowKey y).1 ∧ strLt (rowKey x).2 (rowKey y).2 = true)

instance : DecidableRel rowLE := by
  intro x y; unfold rowLE; infer_instance

instance : DecidableRel rowLT := by
  intro x y; unfold rowLT; infer_instance

/-- `WHERE game_id = ? AND status = 'IN'`: the IN rows, in table order. -/
def listIn (s : Ledger) : List (String × Entry) :=
  List.filter (fun pe => pe.2.status = PStatus.IN) s

/-- The IN rows sorted by `ORDER BY order_val, player_name` (lines 361-364).
Names are unique among the rows of one game, so every sorting algorithm
realises the SQL ordering identically; insertion sort is used here. -/
def sortedIn (s : Ledger) : List (String × Entry) :=
  List.insertionSort rowLE (listIn s)

/-- `list_in_order`: the IN player names in kicking order — the
`available_players` list the UI builds from the sorted query. -/
def list_in_order (s : Ledger) : List String :=
  List.map Prod.fst (sortedIn s)

/-- Line 369: `needs_order_init = any(row[1] == 999 for row in ...)`. -/
def needsInit (s : Ledger) : Bool :=
  List.any (sortedIn s) (fun pe => orderVal pe.2 = 999)

/-- Lines 372-376: `for idx, (player_name, _) in enumerate(..., 1): UPDATE
... SET kicking_order = idx ...` — assign `k, k+1, ...` to the named
players in the given sequence. -/
def applyOrderList (s : Ledger) (names : List String) (k : Nat) : Ledger :=
  match names with
  | [] => s
  | n :: rest => applyOrderList (setOrder s n (some k)) rest (k + 1)

/-- Lines 367-384: if any IN row lacks a kicking order (`order_val = 999`),
assign sequential orders `1..N` following the current
`(order_val, player_name)` sort. -/
def backfill_orders (s : Ledger) : Ledger :=
  if needsInit s then applyOrderList s (list_in_order s) 1 else s

/-- The `available_players` view: the ordered IN names after the
order-initialisation block has run (lines 360-385). -/
def available_players (s : Ledger) : List String :=
  list_in_order (backfill_orders s)

/-! ### Kicking-order reordering (lines 416-461) -/

/-- The move up / move down swap: read both players' `kicking_order`, then
`UPDATE` each with the other's value. -/
def swap_order (s : Ledger) (a b : String) : Ledger :=
  let oa := kickOrder s a
  let ob := kickOrder s b
  setOrder (setOrder s a ob) b oa

/-- Lines 421-440: the "move up" button of player `p` exists only when `p`
is not first in the `available_players` list; it swaps `p` with the
player directly above. -/
def moveUp (s : Ledger) (p : String) : Ledger :=
  let aps := list_in_order s
  let idx := List.indexOf p aps
  if 0 < idx ∧ idx < aps.length then swap_order s p (aps.getD (idx - 1) "") else s

/-- Lines 442-461: the "move down" button of player `p` exists only when
`p` is not last; it swaps `p` with the player directly below. -/
def moveDown (s : Ledger) (p : String) : Ledger :=
  let aps := list_in_order s
  let idx := List.indexOf p aps
  if idx + 1 < aps.length then swap_order s p (aps.getD (idx + 1) "") else s

/-! ### The lineup grid -/

/-- Lines 210-214: the fixed 12-element position set. -/
def POSITIONS : List String :=
  ["Pitcher", "Catcher", "First Base", "Second Base", "Third Base",
   "Short Stop", "Left Field", "Left Center", "Center Field",
   "Right Center", "Right Field", "Out"]

/-- `POSITIONS` in SQLite TEXT order: the order in which the rows of one
inning arrive from `SELECT ... ORDER BY inning, position` (line 389). -/
def sqlPositions : List String :=
  ["Catcher", "Center Field", "First Base", "Left Center", "Left Field",
   "Out", "Pitcher", "Right Center", "Right Field", "Second Base",
   "Short Stop", "Third Base"]

/-- The lineup grid of one game: `(inning, position) ↦` occupant.  A cell
absent from `lineup_positions` is `none`. -/
abbrev Grid : Type := Nat → String → Option String

/-- `SELECT player_name FROM lineup_positions WHERE game_id = ? AND
inning = ? AND position = ?`. -/
def cell (g : Grid) (inning : Nat) (pos : String) : Option String :=
  g inning pos

/-- Writing one cell: `INSERT OR REPLACE INTO lineup_positions`
(lines 528-531). -/
def writeCell (g : Grid) (inning : Nat) (pos pl : String) : Grid :=
  fun i p => if i = inning ∧ p = pos then some pl else g i p

/-- `DELETE FROM lineup_positions WHERE game_id = ? AND inning = ? AND
position = ?`. -/
def eraseCell (g : Grid) (inning : Nat) (pos : String) : Grid :=
  fun i p => if i = inning ∧ p = pos then none else g i p

/-- Lines 397-403: `player_positions_by_inning` — the reverse lookup
`player ↦ position` built by iterating the inning's rows in SQL text
order of `position`; a later matching row overwrites an earlier one, and
a player occupying no cell maps to the empty string (`.get(player, "")`,
line 494). -/
def playerPosition (g : Grid) (inning : Nat) (pl : String) : String :=
  List.foldl (fun acc pos => if g inning pos = some pl then pos else acc) "" sqlPositions

/-- Lines 516-525: before inserting, the handler checks whether the target
cell is occupied by a different player and deletes that row ("evicted,
not swapped"). -/
def evictStep (g : Grid) (inning : Nat) (pos pl : String) : Grid :=
  match g inning pos with
  | some q => if q = pl then g else eraseCell g inning pos
  | none => g

/-- The state change of the lineup selectbox handler (lines 505-531) for
player `pl`, inning `inning`, newly selected position `sel`:
* if the selection equals the player's current position, nothing runs;
* otherwise the player's old cell (if any) is deleted, and when the
  selection is non-blank, a different occupant of the target cell is
  deleted and the player is written into the target cell. -/
def applyAssign (g : Grid) (inning : Nat) (sel pl : String) : Grid :=
  let current := playerPosition g inning pl
  if sel = current then g
  else
    let g1 := if current = "" then g else eraseCell g inning current
    if sel = "" then g1
    else writeCell (evictStep g1 inning sel pl) inning sel pl

/-- `assign(game, inning, position, player)`: the selectbox handler
together with the storage constraint `CHECK(inning BETWEEN 1 AND 7)` on
`lineup_positions` (line 83).  The handler itself validates nothing; the
only rejection happens when it reaches its `INSERT` with an inning
outside `1..7`, in which case the transaction is not committed and the
stored state is unchanged (`Except.error`). -/
def assign (g : Grid) (inning : Nat) (sel pl : String) : Except Unit Grid :=
  if sel ≠ playerPosition g inning pl ∧ sel ≠ "" ∧ ¬(1 ≤ inning ∧ inning ≤ 7) then
    Except.error ()
  else
    Except.ok (applyAssign g inning sel pl)

/-- Modelled from the spec: `occupants(game)` — "set of player names
currently assigned anywhere in the grid" (§4.2).  The repository has no
such function of its own; its grid rows always carry inning `1..7` and a
position from the fixed set, so the collection scans those cells. -/
def occupants (g : Grid) : List String :=
  (List.range' 1 7).flatMap (fun i => List.filterMap (fun pos => g i pos) sqlPositions)

/-- Line 543: `playing_positions = [p for p in POSITIONS if p != "Out"]`. -/
def playing_positions : List String :=
  List.filter (fun p => p ≠ "Out") POSITIONS

/-- Lines 544-547: the number of distinct playing positions of an inning
holding a truthy (non-NULL, non-empty) player. -/
def positionsFilled (g : Grid) (inning : Nat) : Nat :=
  List.countP (fun pos => (g inning pos).getD "" ≠ "") playing_positions

/-- Lines 541-551 (and 746-755): the "Innings with Unused Positions"
metric — the number of innings `1..7` with fewer than 11 filled playing
positions. -/
def incomplete_innings (g : Grid) : Nat :=
  List.countP (fun i => positionsFilled g i < 11) (List.range' 1 7)

/-- The grid of a freshly created game: no `lineup_positions` rows. -/
def emptyGrid : Grid := fun _ _ => none

/-- The whole per-game state: availability ledger plus lineup grid. -/
structure GameState where
  ledger : Ledger
  grid : Grid

/-- `set_status` on the whole game state: the status handlers touch only
`game_player_status`, never `lineup_positions`. -/
def set_status_state (gs : GameState) (p : String) (st : PStatus) (isSub : Bool) : GameState :=
  { gs with ledger := set_status gs.ledger p st isSub }

/-- The per-row net effect of the order-initialisation loop
(`applyOrderList s names k`): a row named in `names` receives
`kicking_order = k + position of its name`, all other rows are untouched.
`applyOrderList_eq` proves the loop equal to this map when the names are
distinct (which the UNIQUE constraint guarantees). -/
def initUpd (names : List String) (k : Nat) (pe : String × Entry) : String × Entry :=
  if pe.1 ∈ names then (pe.1, { pe.2 with kicking_order := some (k + List.indexOf pe.1 names) })
  else pe

/-! ### Concrete fixture states used by witnesses and counterexamples -/

/-- Three main-roster players toggled IN before ordering is initialised. -/
def ledgerABC : Ledger :=
  [("Alice", ⟨PStatus.IN, false, none⟩),
   ("Bob", ⟨PStatus.IN, false, none⟩),
   ("Carol", ⟨PStatus.IN, false, none⟩)]

/-- `ledgerABC` after the kicking-order initialisation block. -/
def ledgerABC' : Ledger := backfill_orders ledgerABC

/-- `ledgerABC'` after Bob is toggled OUT. -/
def ledgerAC : Ledger := set_status ledgerABC' "Bob" PStatus.OUT false

/-- A grid with Quinn at Pitcher in inning 1 and nothing else. -/
def gridQ : Grid :=
  fun i p => if i = 1 ∧ p = "Pitcher" then some "Quinn" else none

/-- A grid filling every playing position of every inning with a distinct
player named after the position. -/
def gridFull : Grid :=
  fun _ pos => if pos = "Out" then none else some pos

/-- A game state: Alice/Bob/Carol IN with orders 1,2,3, Carol at Pitcher
in inning 1. -/
def gsCarol : GameState :=
  { ledger := [("Alice", ⟨PStatus.IN, false, some 1⟩),
               ("Bob", ⟨PStatus.IN, false, some 2⟩),
               ("Carol", ⟨PStatus.IN, false, some 3⟩)],
    grid := fun i p => if i = 1 ∧ p = "Pitcher" then some "Carol" else none }

/-! ## Helper lemmas about ledger lookups -/

theorem lookupEntry_cons (x : String × Entry) (t : Ledger) (q : String) :
    lookupEntry (x :: t) q = if x.1 = q then some x.2 else lookupEntry t q := by
  by_cases h : x.1 = q
  · unfold lookupEntry
    rw [List.find?_cons_of_pos _ (by simpa using h)]
    simp [h]
  · unfold lookupEntry
    rw [List.find?_cons_of_neg _ (by simpa using h)]
    simp [h]

theorem lookup_mapUpd (s : Ledger) (p q : String) (f : Entry → Entry) :
    lookupEntry (List.map (fun pe => if pe.1 = p then (pe.1, f pe.2) else pe) s) q =
      if q = p then Option.map f (lookupEntry s q) else lookupEntry s q := by
  induction s with
  | nil => by_cases h : q = p <;> simp [lookupEntry, h]
  | cons x t ih =>
    simp only [List.map_cons]
    by_cases hxp : x.1 = p
    · rw [if_pos hxp, lookupEntry_cons, lookupEntry_cons]
      by_cases hxq : x.1 = q
      · have hqp : q = p := hxq ▸ hxp
        simp [hxq, hqp]
      · simp [hxq, ih]
    · rw [if_neg hxp, lookupEntry_cons, lookupEntry_cons]
      by_cases hxq : x.1 = q
      · have hqp : ¬ q = p := fun h => hxp (hxq.trans h)
        simp [hxq, hqp]
      · simp [hxq, ih]

theorem lookup_setOrder (s : Ledger) (p q : String) (o : Option Nat) :
    lookupEntry (setOrder s p o) q =
      if q = p then Option.map (fun e => { e with kicking_order := o }) (lookupEntry s q)
      else lookupEntry s q :=
  lookup_mapUpd s p q (fun e => { e with kicking_order := o })

theorem lookup_updStatusOrder (s : Ledger) (p q : String) (st : PStatus) (o : Option Nat) :
    lookupEntry (updStatusOrder s p st o) q =
      if q = p then Option.map (fun e => { e with status := st, kicking_order := o }) (lookupEntry s q)
      else lookupEntry s q :=
  lookup_mapUpd s p q (fun e => { e with status := st, kicking_order := o })

theorem find?_filter_imp {α : Type} (l : List α) (pr f : α → Bool)
    (h : ∀ x, pr x = true → f x = true) :
    List.find? pr (List.filter f l) = List.find? pr l := by
  induction l with
  | nil => rfl
  | cons x t ih =>
    by_cases hf : f x = true
    · rw [List.filter_cons, if_pos hf]
      by_cases hp : pr x = true
      · rw [List.find?_cons_of_pos _ hp, List.find?_cons_of_pos _ hp]
      · rw [List.find?_cons_of_neg _ hp, List.find?_cons_of_neg _ hp, ih]
    · rw [List.filter_cons, if_neg hf]
      have hp : ¬ pr x = true := fun hpx => hf (h x hpx)
      rw [List.find?_cons_of_neg _ hp, ih]

theorem lookup_insertOrReplace (s : Ledger) (p : String) (e : Entry) (q : String) :
    lookupEntry (insertOrReplace s p e) q = if q = p then some e else lookupEntry s q := by
  unfold insertOrReplace lookupEntry
  rw [List.find?_append]
  by_cases hqp : q = p
  · subst hqp
    have h1 : List.find? (fun pe : String × Entry => pe.1 = q) (List.filter (fun pe => pe.1 ≠ q) s) = none := by
      rw [List.find?_eq_none]
      intro x hx
      have h2 := (List.mem_filter.mp hx).2
      rw [decide_eq_true_eq] at h2
      simpa using h2
    rw [h1]
    simp
  · have himp : ∀ x : String × Entry, (decide (x.1 = q)) = true → (decide (x.1 ≠ p)) = true := by
      intro x hx
      rw [decide_eq_true_eq] at hx ⊢
      exact fun hp => hqp (hx.symm.trans hp)
    rw [find?_filter_imp s _ _ himp]
    have h2 : List.find? (fun pe : String × Entry => pe.1 = q) [(p, e)] = none := by
      rw [List.find?_eq_none]
      intro x hx
      rw [List.mem_singleton] at hx
      subst hx
      simpa using fun hh => hqp hh.symm
    rw [h2, if_neg hqp]
    cases List.find? (fun pe : String × Entry => pe.1 = q) s <;> rfl

theorem mem_insertOrReplace (s : Ledger) (p : String) (e : Entry) (x : String × Entry) :
    x ∈ insertOrReplace s p e ↔ (x ∈ s ∧ x.1 ≠ p) ∨ x = (p, e) := by
  simp [insertOrReplace, List.mem_append, List.mem_filter]

theorem hasEntry_false_lookup (s : Ledger) (p : String) (h : hasEntry s p = false) :
    lookupEntry s p = none := by
  unfold hasEntry at h
  rw [List.any_eq_false] at h
  unfold lookupEntry
  rw [List.find?_eq_none.mpr h]
  rfl

theorem hasEntry_true_lookup (s : Ledger) (p : String) (h : hasEntry s p = true) :
    ∃ e, lookupEntry s p = some e := by
  unfold hasEntry at h
  rw [List.any_eq_true] at h
  have hs : (List.find? (fun pe => pe.1 = p) s).isSome = true := List.find?_isSome.mpr h
  obtain ⟨pe, hpe⟩ := Option.isSome_iff_exists.mp hs
  exact ⟨pe.2, by unfold lookupEntry; rw [hpe]; rfl⟩

theorem lookup_append_one (s : Ledger) (p q : String) (e : Entry) (h : q ≠ p) :
    lookupEntry (s ++ [(p, e)]) q = lookupEntry s q := by
  induction s with
  | nil =>
    have : ¬ (p = q) := fun hh => h hh.symm
    simp [lookupEntry_cons, lookupEntry, this]
  | cons x t ih =>
    rw [List.cons_append, lookupEntry_cons, lookupEntry_cons, ih]

theorem lookup_append_one_self (s : Ledger) (p : String) (e : Entry)
    (h : lookupEntry s p = none) :
    lookupEntry (s ++ [(p, e)]) p = some e := by
  induction s with
  | nil => simp [lookupEntry_cons, lookupEntry]
  | cons x t ih =>
    rw [lookupEntry_cons] at h
    by_cases hx : x.1 = p
    · rw [if_pos hx] at h; cases h
    · rw [if_neg hx] at h
      rw [List.cons_append, lookupEntry_cons, if_neg hx]
      exact ih h

/-! ## Helper lemmas about `maxOrder` -/

theorem maxOrder_init_le (s : Ledger) : ∀ init : Nat,
    init ≤ List.foldl
      (fun m pe =>
        if pe.2.status = PStatus.IN then
          match pe.2.kicking_order with
          | some o => Nat.max m o
          | none => m
        else m)
      init s := by
  induction s with
  | nil => intro init; exact Nat.le_refl _
  | cons x t ih =>
    intro init
    rw [List.foldl_cons]
    refine Nat.le_trans ?_ (ih _)
    by_cases h : x.2.status = PStatus.IN
    · cases hko : x.2.kicking_order with
      | none => simp [h, hko]
      | some o => simp [h, hko, Nat.le_max_left]
    · simp [h]

theorem maxOrder_is_ub (s : Ledger) (r : String) (e : Entry) (o : Nat)
    (hmem : (r, e) ∈ s) (hst : e.status = PStatus.IN) (hko : e.kicking_order = some o) :
    o ≤ maxOrder s := by
  have aux : ∀ (t : Ledger) (init : Nat), (r, e) ∈ t →
      o ≤ List.foldl
        (fun m pe =>
          if pe.2.status = PStatus.IN then
            match pe.2.kicking_order with
            | some o => Nat.max m o
            | none => m
          else m)
        init t := by
    intro t
    induction t with
    | nil => intro init h; cases h
    | cons x u ih =>
      intro init hmem2
      rw [List.foldl_cons]
      rcases List.mem_cons.mp hmem2 with hx | hx
      · refine Nat.le_trans ?_ (maxOrder_init_le u _)
        rw [← hx]
        simp [hst, hko, Nat.le_max_right]
      · exact ih _ hx
  exact aux s 0 hmem

/-! ## Theorems for claims C3 and C4 -/

/-- Claim C3: when `set_status(G, P, IN, ·)` runs and `P` previously had no
kicking order (was OUT or had no row), `P`'s kicking order becomes
`max(existing IN orders) + 1` (`maxOrder`, which is `0` when no IN row
carries an order, bounds every existing IN order from above), and no
other player's row changes. -/
theorem claim_C3 (s : Ledger) (p q r : String) (e : Entry) (o : Nat) (isSub : Bool)
    (_hprev : kickOrder s p = none) (hq : q ≠ p) :
    kickOrder (set_status s p PStatus.IN isSub) p = some (maxOrder s + 1) ∧
    lookupEntry (set_status s p PStatus.IN isSub) q = lookupEntry s q ∧
    ((r, e) ∈ s → e.status = PStatus.IN → e.kicking_order = some o → o ≤ maxOrder s) := by
  refine ⟨?_, ?_, fun hmem hst hko => maxOrder_is_ub s r e o hmem hst hko⟩
  · cases isSub with
    | false =>
      unfold set_status kickOrder
      rw [lookup_insertOrReplace, if_pos rfl]
      rfl
    | true =>
      unfold set_status
      by_cases hhe : hasEntry s p
      · rw [if_pos hhe]
        obtain ⟨e0, he0⟩ := hasEntry_true_lookup s p hhe
        unfold kickOrder
        rw [lookup_updStatusOrder, if_pos rfl, he0]
        rfl
      · rw [if_neg hhe]
        unfold kickOrder
        rw [lookup_append_one_self s p _ (hasEntry_false_lookup s p (Bool.not_eq_true _ ▸ hhe))]
        rfl
  · cases isSub with
    | false =>
      unfold set_status
      rw [lookup_insertOrReplace, if_neg hq]
    | true =>
      unfold set_status
      by_cases hhe : hasEntry s p
      · rw [if_pos hhe, lookup_updStatusOrder, if_neg hq]
      · rw [if_neg hhe, lookup_append_one s p q _ hq]

/-- Witness for claim C3: adding Dave (a substitute with no row, hence no
kicking order) to the game with IN players Alice(1), Bob(2), Carol(3)
gives Dave kicking order 4, leaves Alice's row unchanged, and 3 bounds
the existing orders. -/
theorem claim_C3_witness :
    kickOrder ledgerABC' "Dave" = none ∧
    kickOrder (set_status ledgerABC' "Dave" PStatus.IN true) "Dave" = some (maxOrder ledgerABC' + 1) ∧
    lookupEntry (set_status ledgerABC' "Dave" PStatus.IN true) "Alice" = lookupEntry ledgerABC' "Alice" ∧
    3 ≤ maxOrder ledgerABC' := by
  have h := claim_C3 ledgerABC' "Dave" "Alice" "Carol" ⟨PStatus.IN, false, some 3⟩ 3 true
    (by decide) (by decide)
  exact ⟨by decide, h.1, h.2.1, h.2.2 (by decide) (by decide) (by decide)⟩

theorem set_status_out_status (s : Ledger) (p : String) (b : Bool) (e : Entry)
    (hmem : (p, e) ∈ set_status s p PStatus.OUT b) : e.status = PStatus.OUT := by
  cases b with
  | false =>
    unfold set_status at hmem
    rcases (mem_insertOrReplace s p _ _).mp hmem with ⟨_, hne⟩ | heq
    · exact absurd rfl hne
    · cases heq; rfl
  | true =>
    unfold set_status updStatusOrder at hmem
    obtain ⟨y, _, hy⟩ := List.mem_map.mp hmem
    by_cases hyp : y.1 = p
    · rw [if_pos hyp] at hy
      cases hy; rfl
    · rw [if_neg hyp] at hy
      exact absurd (congrArg Prod.fst hy) hyp

theorem kickOrder_set_status_out (s : Ledger) (p : String) (b : Bool) :
    kickOrder (set_status s p PStatus.OUT b) p = none := by
  cases b with
  | false =>
    unfold set_status kickOrder
    rw [lookup_insertOrReplace, if_pos rfl]
    rfl
  | true =>
    unfold set_status kickOrder
    rw [lookup_updStatusOrder, if_pos rfl]
    cases lookupEntry s p <;> rfl

/-- Claim C4: toggling a player IN and then OUT removes the player from
`list_in_order` and clears the kicking order, for every combination of
the main-roster and substitute handlers. -/
theorem claim_C4 (s : Ledger) (p : String) (bIn bOut : Bool) :
    p ∉ list_in_order (set_status (set_status s p PStatus.IN bIn) p PStatus.OUT bOut) ∧
    kickOrder (set_status (set_status s p PStatus.IN bIn) p PStatus.OUT bOut) p = none := by
  refine ⟨?_, kickOrder_set_status_out _ p bOut⟩
  intro hp
  obtain ⟨pe, hpe, hfst⟩ := List.mem_map.mp hp
  have hmem : pe ∈ listIn (set_status (set_status s p PStatus.IN bIn) p PStatus.OUT bOut) :=
    ((List.perm_insertionSort rowLE _).mem_iff).mp hpe
  obtain ⟨hmem', hstat⟩ := List.mem_filter.mp hmem
  have hin : pe.2.status = PStatus.IN := by simpa using hstat
  have hpair : (p, pe.2) ∈ set_status (set_status s p PStatus.IN bIn) p PStatus.OUT bOut := by
    have heta : pe = (p, pe.2) := by
      rw [← hfst]
    rw [← heta]
    exact hmem'
  have hout := set_status_out_status _ p bOut pe.2 hpair
  rw [hin] at hout
  cases hout

/-! ## Backfill preservation lemmas -/

theorem applyOrderList_lookup_none (names : List String) (s : Ledger) (k : Nat) (p : String)
    (h : lookupEntry s p = none) : lookupEntry (applyOrderList s names k) p = none := by
  induction names generalizing s k with
  | nil => exact h
  | cons n rest ih =>
    unfold applyOrderList
    apply ih
    rw [lookup_setOrder]
    by_cases hpn : p = n
    · subst hpn
      rw [if_pos rfl, h]
      rfl
    · rw [if_neg hpn]
      exact h

theorem applyOrderList_mem_status (names : List String) (s : Ledger) (k : Nat)
    (x : String × Entry) (hx : x ∈ applyOrderList s names k) :
    ∃ e : Entry, (x.1, e) ∈ s ∧ e.status = x.2.status := by
  induction names generalizing s k with
  | nil =>
    refine ⟨x.2, ?_, rfl⟩
    rw [Prod.mk.eta]
    exact hx
  | cons n rest ih =>
    unfold applyOrderList at hx
    obtain ⟨e, he, hst⟩ := ih _ _ hx
    unfold setOrder at he
    obtain ⟨y, hy, hye⟩ := List.mem_map.mp he
    by_cases hyn : y.1 = n
    · rw [if_pos hyn] at hye
      obtain ⟨h1, h2⟩ := Prod.mk.injEq .. ▸ hye
      refine ⟨y.2, ?_, ?_⟩
      · rw [← h1, Prod.mk.eta]
        exact hy
      · rw [← hst, ← h2]
    · rw [if_neg hyn] at hye
      refine ⟨y.2, ?_, ?_⟩
      · rw [← congrArg Prod.fst hye, Prod.mk.eta]
        exact hy
      · rw [← hst, ← congrArg (fun z : String × Entry => z.2.status) hye]

theorem backfill_mem_status (s : Ledger) (x : String × Entry) (hx : x ∈ backfill_orders s) :
    ∃ e : Entry, (x.1, e) ∈ s ∧ e.status = x.2.status := by
  unfold backfill_orders at hx
  by_cases h : needsInit s
  · rw [if_pos h] at hx
    exact applyOrderList_mem_status _ _ _ _ hx
  · rw [if_neg h] at hx
    refine ⟨x.2, ?_, rfl⟩
    rw [Prod.mk.eta]
    exact hx

theorem not_in_available_of_all_out (s : Ledger) (p : String)
    (h : ∀ e : Entry, (p, e) ∈ s → e.status = PStatus.OUT) :
    p ∉ available_players s := by
  intro hp
  unfold available_players list_in_order at hp
  obtain ⟨pe, hpe, hfst⟩ := List.mem_map.mp hp
  have hmem := ((List.perm_insertionSort rowLE _).mem_iff).mp hpe
  obtain ⟨hmem', hstat⟩ := List.mem_filter.mp hmem
  have hin : pe.2.status = PStatus.IN := by simpa using hstat
  obtain ⟨e, hes, hest⟩ := backfill_mem_status s pe hmem'
  rw [hfst] at hes
  rw [h e hes, hin] at hest
  cases hest

theorem lookup_none_not_in_order (s : Ledger) (p : String) (h : lookupEntry s p = none) :
    p ∉ list_in_order s := by
  intro hp
  obtain ⟨pe, hpe, hfst⟩ := List.mem_map.mp hp
  have hmem := ((List.perm_insertionSort rowLE _).mem_iff).mp hpe
  obtain ⟨hmem', _⟩ := List.mem_filter.mp hmem
  unfold lookupEntry at h
  cases hf : List.find? (fun pe => pe.1 = p) s with
  | none =>
    have h2 := List.find?_eq_none.mp hf pe hmem'
    simp at h2
    exact h2 hfst
  | some y =>
    rw [hf] at h
    simp at h

/-! ## Theorems for claims C9 and C10 -/

/-- Claim C9 (frame property): `set_status(G, P, OUT, ·)` touches only
`game_player_status` — the grid and its occupant set are untouched, a
cell occupied by `P` stays occupied ("ghost occupant"), while `P`
disappears from `available_players`. -/
theorem claim_C9 (gs : GameState) (p : String) (b : Bool) :
    (set_status_state gs p PStatus.OUT b).grid = gs.grid ∧
    occupants (set_status_state gs p PStatus.OUT b).grid = occupants gs.grid ∧
    (p ∈ occupants gs.grid → p ∈ occupants (set_status_state gs p PStatus.OUT b).grid) ∧
    p ∉ available_players (set_status_state gs p PStatus.OUT b).ledger := by
  refine ⟨rfl, rfl, fun h => h, ?_⟩
  exact not_in_available_of_all_out _ p
    (fun e he => set_status_out_status gs.ledger p b e he)

/-- Witness for claim C9: Carol occupies Pitcher of inning 1; after being
marked OUT she is still an occupant but no longer available. -/
theorem claim_C9_witness :
    "Carol" ∈ occupants gsCarol.grid ∧
    "Carol" ∈ occupants (set_status_state gsCarol "Carol" PStatus.OUT false).grid ∧
    "Carol" ∉ available_players (set_status_state gsCarol "Carol" PStatus.OUT false).ledger := by
  have h := claim_C9 gsCarol "Carol" false
  exact ⟨by decide, h.2.2.1 (by decide), h.2.2.2⟩

/-- Claim C10 (implicit): a main-roster player with no persisted row is
displayed IN by default, yet absent from `list_in_order` and
`available_players`, and the backfill writes no row for the player — the
default IN state is display-only until a row is persisted. -/
theorem claim_C10 (s : Ledger) (p : String) (habs : lookupEntry s p = none) :
    displayStatus s p = PStatus.IN ∧
    p ∉ list_in_order s ∧
    p ∉ available_players s ∧
    lookupEntry (backfill_orders s) p = none := by
  have hb : lookupEntry (backfill_orders s) p = none := by
    unfold backfill_orders
    by_cases h : needsInit s
    · rw [if_pos h]
      exact applyOrderList_lookup_none _ s 1 p habs
    · rw [if_neg h]
      exact habs
  refine ⟨?_, lookup_none_not_in_order s p habs, ?_, hb⟩
  · unfold displayStatus
    rw [habs]
  · exact lookup_none_not_in_order _ p hb

/-- Witness for claim C10: Zoe has no row in the Alice/Bob/Carol ledger. -/
theorem claim_C10_witness :
    displayStatus ledgerABC "Zoe" = PStatus.IN ∧
    "Zoe" ∉ list_in_order ledgerABC ∧
    "Zoe" ∉ available_players ledgerABC ∧
    lookupEntry (backfill_orders ledgerABC) "Zoe" = none :=
  claim_C10 ledgerABC "Zoe" (by decide)

/-! ## Theorem for claim C8 -/

/-- Claim C8: `incomplete_innings` counts the innings `1..7` with fewer
than 11 filled playing positions; it is 7 on the empty grid and 0 when
every inning fills all 11 playing positions with (distinct) players. -/
theorem claim_C8 (g : Grid)
    (hfull : ∀ i ∈ List.range' 1 7, ∀ pos ∈ playing_positions, (g i pos).getD "" ≠ "")
    (_hdist : ∀ i ∈ List.range' 1 7, ∀ p1 ∈ playing_positions, ∀ p2 ∈ playing_positions,
      g i p1 = g i p2 → p1 = p2) :
    incomplete_innings emptyGrid = 7 ∧ incomplete_innings g = 0 := by
  constructor
  · decide
  · unfold incomplete_innings
    rw [List.countP_eq_zero]
    intro i hi
    have hfill : positionsFilled g i = 11 := by
      unfold positionsFilled
      have hlen : playing_positions.length = 11 := by decide
      rw [← hlen]
      exact List.countP_eq_length.mpr (fun pos hpos => by simpa using hfull i hi pos hpos)
    simp [hfill]

/-- Witness for claim C8: the grid assigning to every playing position a
player named after the position fills all innings. -/
theorem claim_C8_witness :
    incomplete_innings emptyGrid = 7 ∧ incomplete_innings gridFull = 0 :=
  claim_C8 gridFull (by decide) (by decide)

/-! ## Grid lemmas -/

theorem writeCell_same (g : Grid) (i : Nat) (pos pl : String) :
    writeCell g i pos pl i pos = some pl := by
  unfold writeCell
  rw [if_pos ⟨rfl, rfl⟩]

theorem writeCell_other (g : Grid) (i : Nat) (pos pl : String) (j : Nat) (p : String)
    (h : ¬(j = i ∧ p = pos)) : writeCell g i pos pl j p = g j p := by
  unfold writeCell
  rw [if_neg h]

theorem eraseCell_same (g : Grid) (i : Nat) (pos : String) :
    eraseCell g i pos i pos = none := by
  unfold eraseCell
  rw [if_pos ⟨rfl, rfl⟩]

theorem eraseCell_other (g : Grid) (i : Nat) (pos : String) (j : Nat) (p : String)
    (h : ¬(j = i ∧ p = pos)) : eraseCell g i pos j p = g j p := by
  unfold eraseCell
  rw [if_neg h]

theorem evictStep_other (g : Grid) (i : Nat) (pos pl : String) (j : Nat) (p : String)
    (h : ¬(j = i ∧ p = pos)) : evictStep g i pos pl j p = g j p := by
  unfold evictStep
  cases g i pos with
  | none => rfl
  | some q0 =>
    show (if q0 = pl then g else eraseCell g i pos) j p = g j p
    by_cases hq0 : q0 = pl
    · rw [if_pos hq0]
    · rw [if_neg hq0]
      exact eraseCell_other g i pos j p h

theorem ppFold_no_match (g : Grid) (i : Nat) (pl : String) (L : List String) (acc : String)
    (h : ∀ pos ∈ L, g i pos ≠ some pl) :
    List.foldl (fun acc pos => if g i pos = some pl then pos else acc) acc L = acc := by
  induction L generalizing acc with
  | nil => rfl
  | cons x t ih =>
    rw [List.foldl_cons, if_neg (h x (List.mem_cons_self x t))]
    exact ih acc (fun pos hp => h pos (List.mem_cons_of_mem x hp))

theorem ppFold_unique (g : Grid) (i : Nat) (pl : String) (L : List String) (pos : String)
    (hmem : pos ∈ L) (hmatch : g i pos = some pl)
    (huniq : ∀ q ∈ L, g i q = some pl → q = pos) :
    ∀ acc, List.foldl (fun acc pos => if g i pos = some pl then pos else acc) acc L = pos := by
  induction L with
  | nil => cases hmem
  | cons x t ih =>
    intro acc
    rw [List.foldl_cons]
    by_cases hx : g i x = some pl
    · rw [if_pos hx]
      have hxpos : x = pos := huniq x (List.mem_cons_self x t) hx
      subst hxpos
      by_cases hmemt : x ∈ t
      · exact ih hmemt (fun q hq hgq => huniq q (List.mem_cons_of_mem x hq) hgq) x
      · refine ppFold_no_match g i pl t x ?_
        intro q hq hgq
        exact hmemt ((huniq q (List.mem_cons_of_mem x hq) hgq) ▸ hq)
    · rw [if_neg hx]
      have hpos_t : pos ∈ t := by
        rcases List.mem_cons.mp hmem with h1 | h1
        · rw [← h1] at hx
          exact absurd hmatch hx
        · exact h1
      exact ih hpos_t (fun q hq hgq => huniq q (List.mem_cons_of_mem x hq) hgq) acc

theorem ppFold_invariant (g : Grid) (i : Nat) (pl : String) (L : List String) (acc : String)
    (hacc : acc = "" ∨ g i acc = some pl) :
    List.foldl (fun acc pos => if g i pos = some pl then pos else acc) acc L = "" ∨
      g i (List.foldl (fun acc pos => if g i pos = some pl then pos else acc) acc L) = some pl := by
  induction L generalizing acc with
  | nil => exact hacc
  | cons x t ih =>
    rw [List.foldl_cons]
    by_cases hx : g i x = some pl
    · rw [if_pos hx]
      exact ih x (Or.inr hx)
    · rw [if_neg hx]
      exact ih acc hacc

/-- If the reverse lookup returns a position, the player is there. -/
theorem playerPosition_mem (g : Grid) (i : Nat) (pl : String)
    (h : playerPosition g i pl ≠ "") :
    g i (playerPosition g i pl) = some pl := by
  rcases ppFold_invariant g i pl sqlPositions "" (Or.inl rfl) with h1 | h1
  · exact absurd h1 h
  · exact h1

/-- If the player occupies no (standard) cell of the inning, the reverse
lookup returns the empty default. -/
theorem playerPosition_of_no_match (g : Grid) (i : Nat) (pl : String)
    (h : ∀ pos ∈ sqlPositions, g i pos ≠ some pl) :
    playerPosition g i pl = "" :=
  ppFold_no_match g i pl sqlPositions "" h

/-- If the player occupies exactly one cell of the inning, the reverse
lookup finds it. -/
theorem playerPosition_unique (g : Grid) (i : Nat) (pl pos : String)
    (hmem : pos ∈ sqlPositions) (hmatch : g i pos = some pl)
    (huniq : ∀ q ∈ sqlPositions, g i q = some pl → q = pos) :
    playerPosition g i pl = pos :=
  ppFold_unique g i pl sqlPositions pos hmem hmatch huniq ""

theorem applyAssign_eq (g : Grid) (i : Nat) (sel pl : String)
    (hsel : sel ≠ playerPosition g i pl) (hne : sel ≠ "") :
    applyAssign g i sel pl =
      writeCell
        (evictStep
          (if playerPosition g i pl = "" then g else eraseCell g i (playerPosition g i pl))
          i sel pl)
        i sel pl := by
  simp only [applyAssign]
  rw [if_neg hsel, if_neg hne]

theorem ppFold_result (g : Grid) (i : Nat) (pl : String) (L : List String) (acc : String) :
    List.foldl (fun acc pos => if g i pos = some pl then pos else acc) acc L = acc ∨
      (List.foldl (fun acc pos => if g i pos = some pl then pos else acc) acc L ∈ L ∧
        g i (List.foldl (fun acc pos => if g i pos = some pl then pos else acc) acc L) = some pl) := by
  induction L generalizing acc with
  | nil => left; rfl
  | cons x t ih =>
    rw [List.foldl_cons]
    by_cases hx : g i x = some pl
    · rw [if_pos hx]
      rcases ih x with h | ⟨hmem, hm⟩
      · right
        rw [h]
        exact ⟨List.mem_cons_self x t, hx⟩
      · right
        exact ⟨List.mem_cons_of_mem x hmem, hm⟩
    · rw [if_neg hx]
      rcases ih acc with h | ⟨hmem, hm⟩
      · left; exact h
      · right
        exact ⟨List.mem_cons_of_mem x hmem, hm⟩

/-- A non-empty reverse-lookup result is a standard position that really
holds the player. -/
theorem playerPosition_mem_pos (g : Grid) (i : Nat) (pl : String)
    (h : playerPosition g i pl ≠ "") :
    playerPosition g i pl ∈ sqlPositions ∧ g i (playerPosition g i pl) = some pl := by
  rcases ppFold_result g i pl sqlPositions "" with h1 | h1
  · exact absurd h1 h
  · exact h1

/-! ## Theorem for claim C1 -/

/-- Claim C1: with a valid inning, standard positions, and each player
occupying at most one cell of the inning, `assign(G, i, pos1, P)` puts
`P` into the cell; the displaced previous occupant `Q` ends up in no cell
of the inning (displaced, never swapped into `P`'s old cell); and a
follow-up `assign(G, i, pos2, P)` empties `pos1` and fills `pos2` —
the player moves, it is not duplicated. -/
theorem claim_C1 (g : Grid) (i : Nat) (pos1 pos2 pl q : String)
    (hi : 1 ≤ i ∧ i ≤ 7)
    (h1 : pos1 ∈ sqlPositions) (h2 : pos2 ∈ sqlPositions) (hne : pos1 ≠ pos2)
    (hq : q ≠ pl) (hOcc : g i pos1 = some q)
    (hu : ∀ a ∈ sqlPositions, ∀ b ∈ sqlPositions, g i a = some pl → g i b = some pl → a = b)
    (huq : ∀ a ∈ sqlPositions, ∀ b ∈ sqlPositions, g i a = some q → g i b = some q → a = b) :
    assign g i pos1 pl = Except.ok (applyAssign g i pos1 pl) ∧
    applyAssign g i pos1 pl i pos1 = some pl ∧
    playerPosition (applyAssign g i pos1 pl) i q = "" ∧
    assign (applyAssign g i pos1 pl) i pos2 pl =
      Except.ok (applyAssign (applyAssign g i pos1 pl) i pos2 pl) ∧
    applyAssign (applyAssign g i pos1 pl) i pos2 pl i pos1 = none ∧
    applyAssign (applyAssign g i pos1 pl) i pos2 pl i pos2 = some pl := by
  have hblank : ∀ p ∈ sqlPositions, p ≠ "" := by decide
  have h1ne : pos1 ≠ "" := hblank pos1 h1
  have h2ne : pos2 ≠ "" := hblank pos2 h2
  have hA : pos1 ≠ playerPosition g i pl := by
    intro hEq
    have hcne : playerPosition g i pl ≠ "" := by
      rw [← hEq]; exact h1ne
    have hm := (playerPosition_mem_pos g i pl hcne).2
    rw [← hEq, hOcc] at hm
    exact hq (Option.some.inj hm)
  have hgA := applyAssign_eq g i pos1 pl hA h1ne
  have hF1 : applyAssign g i pos1 pl i pos1 = some pl := by
    rw [hgA]; exact writeCell_same _ i pos1 pl
  have hgA_other : ∀ p : String, p ≠ pos1 →
      applyAssign g i pos1 pl i p =
        (if playerPosition g i pl = "" then g else eraseCell g i (playerPosition g i pl)) i p := by
    intro p hp
    rw [hgA]
    rw [writeCell_other _ _ _ _ _ _ (fun hand => hp hand.2)]
    rw [evictStep_other _ _ _ _ _ _ (fun hand => hp hand.2)]
  have hgA_pl : ∀ p ∈ sqlPositions, applyAssign g i pos1 pl i p = some pl → p = pos1 := by
    intro p hpmem hpm
    by_contra hne1
    rw [hgA_other p hne1] at hpm
    by_cases hcE : playerPosition g i pl = ""
    · rw [if_pos hcE] at hpm
      have hpp : playerPosition g i pl = p :=
        playerPosition_unique g i pl p hpmem hpm
          (fun r hr hrm => hu r hr p hpmem hrm hpm)
      exact hblank p hpmem (hpp ▸ hcE)
    · rw [if_neg hcE] at hpm
      by_cases hpc : p = playerPosition g i pl
      · rw [hpc, eraseCell_same] at hpm
        cases hpm
      · rw [eraseCell_other _ _ _ _ _ (fun hand => hpc hand.2)] at hpm
        obtain ⟨hcmem, hcm⟩ := playerPosition_mem_pos g i pl hcE
        exact hpc (hu p hpmem _ hcmem hpm hcm)
  have hppA : playerPosition (applyAssign g i pos1 pl) i pl = pos1 :=
    playerPosition_unique _ i pl pos1 h1 hF1 hgA_pl
  have hnoq : ∀ p ∈ sqlPositions, applyAssign g i pos1 pl i p ≠ some q := by
    intro p hpmem
    by_cases hp1 : p = pos1
    · rw [hp1, hF1]
      intro hcontra
      exact hq (Option.some.inj hcontra).symm
    · rw [hgA_other p hp1]
      by_cases hcE : playerPosition g i pl = ""
      · rw [if_pos hcE]
        intro hgq
        exact hp1 (huq p hpmem pos1 h1 hgq hOcc)
      · rw [if_neg hcE]
        by_cases hpc : p = playerPosition g i pl
        · rw [hpc, eraseCell_same]
          intro hx; cases hx
        · rw [eraseCell_other _ _ _ _ _ (fun hand => hpc hand.2)]
          intro hgq
          exact hp1 (huq p hpmem pos1 h1 hgq hOcc)
  have hok1 : assign g i pos1 pl = Except.ok (applyAssign g i pos1 pl) := by
    unfold assign
    rw [if_neg (fun hcond => hcond.2.2 hi)]
  have hsel2 : pos2 ≠ playerPosition (applyAssign g i pos1 pl) i pl := by
    rw [hppA]
    exact fun h => hne h.symm
  have hgB := applyAssign_eq (applyAssign g i pos1 pl) i pos2 pl hsel2 h2ne
  have hg1B : (if playerPosition (applyAssign g i pos1 pl) i pl = ""
        then applyAssign g i pos1 pl
        else eraseCell (applyAssign g i pos1 pl) i (playerPosition (applyAssign g i pos1 pl) i pl)) =
      eraseCell (applyAssign g i pos1 pl) i pos1 := by
    rw [hppA, if_neg h1ne]
  rw [hg1B] at hgB
  have hok2 : assign (applyAssign g i pos1 pl) i pos2 pl =
      Except.ok (applyAssign (applyAssign g i pos1 pl) i pos2 pl) := by
    unfold assign
    rw [if_neg (fun hcond => hcond.2.2 hi)]
  refine ⟨hok1, hF1, playerPosition_of_no_match _ i q hnoq, hok2, ?_, ?_⟩
  · rw [hgB]
    rw [writeCell_other _ _ _ _ _ _ (fun hand => hne hand.2)]
    rw [evictStep_other _ _ _ _ _ _ (fun hand => hne hand.2)]
    exact eraseCell_same _ i pos1
  · rw [hgB]
    exact writeCell_same _ i pos2 pl

/-- Witness for claim C1: Quinn holds Pitcher of inning 1; assigning Alice
to Pitcher displaces Quinn entirely, and re-assigning Alice to Catcher
moves her (Pitcher becomes empty). -/
theorem claim_C1_witness :
    assign gridQ 1 "Pitcher" "Alice" = Except.ok (applyAssign gridQ 1 "Pitcher" "Alice") ∧
    applyAssign gridQ 1 "Pitcher" "Alice" 1 "Pitcher" = some "Alice" ∧
    playerPosition (applyAssign gridQ 1 "Pitcher" "Alice") 1 "Quinn" = "" ∧
    assign (applyAssign gridQ 1 "Pitcher" "Alice") 1 "Catcher" "Alice" =
      Except.ok (applyAssign (applyAssign gridQ 1 "Pitcher" "Alice") 1 "Catcher" "Alice") ∧
    applyAssign (applyAssign gridQ 1 "Pitcher" "Alice") 1 "Catcher" "Alice" 1 "Pitcher" = none ∧
    applyAssign (applyAssign gridQ 1 "Pitcher" "Alice") 1 "Catcher" "Alice" 1 "Catcher" = some "Alice" :=
  claim_C1 gridQ 1 "Pitcher" "Catcher" "Alice" "Quinn" (by decide) (by decide) (by decide)
    (by decide) (by decide) (by decide) (by decide) (by decide)

/-! ## Theorems for claim C7 -/

/-- Counterexample to claim C7 as stated: assigning to the unknown
position string `"Bogus"` does not fail with any error — the handler has
no position validation — and the write goes through to storage. -/
theorem claim_C7_counterexample :
    "Bogus" ∉ POSITIONS ∧
    assign emptyGrid 1 "Bogus" "Alice" = Except.ok (applyAssign emptyGrid 1 "Bogus" "Alice") ∧
    applyAssign emptyGrid 1 "Bogus" "Alice" 1 "Bogus" = some "Alice" :=
  ⟨by decide, rfl, rfl⟩

/-- Claim C7, amended: an inning outside `[1,7]` is rejected — by the
`CHECK(inning BETWEEN 1 AND 7)` storage constraint, not by an engine-level
`ValidationError` — with no committed mutation; the position, however, is
not validated at all: with a valid inning, any position string outside
the fixed 12-element set is accepted and written into the grid. -/
theorem claim_C7 (g : Grid) (i : Nat) (sel pl : String)
    (hcur : sel ≠ playerPosition g i pl) (hne : sel ≠ "") :
    (¬(1 ≤ i ∧ i ≤ 7) → assign g i sel pl = Except.error ()) ∧
    (1 ≤ i → i ≤ 7 → sel ∉ POSITIONS →
      assign g i sel pl = Except.ok (applyAssign g i sel pl) ∧
      applyAssign g i sel pl i sel = some pl) := by
  constructor
  · intro hbad
    unfold assign
    rw [if_pos ⟨hcur, hne, hbad⟩]
  · intro hlo hhi _
    constructor
    · unfold assign
      rw [if_neg (fun hcond => hcond.2.2 ⟨hlo, hhi⟩)]
    · rw [applyAssign_eq g i sel pl hcur hne]
      exact writeCell_same _ i sel pl

/-- Witness for (amended) claim C7: inning 9 is rejected with the state
kept; the unknown position `"Zzz"` in inning 1 is accepted and written. -/
theorem claim_C7_witness :
    assign emptyGrid 9 "Catcher" "Alice" = Except.error () ∧
    assign emptyGrid 1 "Zzz" "Alice" = Except.ok (applyAssign emptyGrid 1 "Zzz" "Alice") ∧
    applyAssign emptyGrid 1 "Zzz" "Alice" 1 "Zzz" = some "Alice" := by
  refine ⟨(claim_C7 emptyGrid 9 "Catcher" "Alice" (by decide) (by decide)).1 (by decide), ?_, ?_⟩
  · exact ((claim_C7 emptyGrid 1 "Zzz" "Alice" (by decide) (by decide)).2
      (by decide) (by decide) (by decide)).1
  · exact ((claim_C7 emptyGrid 1 "Zzz" "Alice" (by decide) (by decide)).2
      (by decide) (by decide) (by decide)).2

/-! ## Properties of the text ordering -/

theorem char_eq_of_toNat_eq {a b : Char} (h : a.toNat = b.toNat) : a = b :=
  Char.ext (UInt32.ext h)

theorem clLe_total : ∀ a b : List Char, clLe a b = true ∨ clLe b a = true := by
  intro a
  induction a with
  | nil => intro b; left; rfl
  | cons x as ih =>
    intro b
    cases b with
    | nil => right; rfl
    | cons y bs =>
      by_cases h1 : x.toNat < y.toNat
      · left; simp [clLe, h1]
      · by_cases h2 : y.toNat < x.toNat
        · right; simp [clLe, h2]
        · rcases ih bs with h | h
          · left; simp [clLe, h1, h2, h]
          · right; simp [clLe, h1, h2, h]

theorem clLe_trans : ∀ a b c : List Char,
    clLe a b = true → clLe b c = true → clLe a c = true := by
  intro a
  induction a with
  | nil => intro b c _ _; rfl
  | cons x as ih =>
    intro b c hab hbc
    cases b with
    | nil => simp [clLe] at hab
    | cons y bs =>
      cases c with
      | nil => simp [clLe] at hbc
      | cons z cs =>
        by_cases hxy : x.toNat < y.toNat
        · by_cases hyz : y.toNat < z.toNat
          · simp [clLe, Nat.lt_trans hxy hyz]
          · by_cases hzy : z.toNat < y.toNat
            · simp [clLe, hyz, hzy] at hbc
            · have hxz : x.toNat < z.toNat := by omega
              simp [clLe, hxz]
        · by_cases hyx : y.toNat < x.toNat
          · simp [clLe, hxy, hyx] at hab
          · simp [clLe, hxy, hyx] at hab
            by_cases hyz : y.toNat < z.toNat
            · have hxz : x.toNat < z.toNat := by omega
              simp [clLe, hxz]
            · by_cases hzy : z.toNat < y.toNat
              · simp [clLe, hyz, hzy] at hbc
              · have h1 : ¬ x.toNat < z.toNat := by omega
                have h2 : ¬ z.toNat < x.toNat := by omega
                simp [clLe, hyz, hzy] at hbc
                simp [clLe, h1, h2]
                exact ih bs cs hab hbc

theorem clLt_of_le_ne : ∀ a b : List Char,
    clLe a b = true → a ≠ b → clLt a b = true := by
  intro a
  induction a with
  | nil =>
    intro b _ hne
    cases b with
    | nil => exact absurd rfl hne
    | cons y bs => rfl
  | cons x as ih =>
    intro b hle hne
    cases b with
    | nil => simp [clLe] at hle
    | cons y bs =>
      by_cases hxy : x.toNat < y.toNat
      · simp [clLt, hxy]
      · by_cases hyx : y.toNat < x.toNat
        · simp [clLe, hxy, hyx] at hle
        · have hxyeq : x = y := char_eq_of_toNat_eq (by omega)
          simp [clLe, hxy, hyx] at hle
          have hne2 : as ≠ bs := fun h => hne (by rw [hxyeq, h])
          simp [clLt, hxy, hyx]
          exact ih bs hle hne2

theorem clLt_asymm : ∀ a b : List Char,
    clLt a b = true → clLt b a = true → False := by
  intro a
  induction a with
  | nil =>
    intro b h1 h2
    cases b with
    | nil => simp [clLt] at h1
    | cons y bs => simp [clLt] at h2
  | cons x as ih =>
    intro b h1 h2
    cases b with
    | nil => simp [clLt] at h1
    | cons y bs =>
      by_cases hxy : x.toNat < y.toNat
      · have hyx : ¬ y.toNat < x.toNat := by omega
        simp [clLt, hxy, hyx] at h2
      · by_cases hyx : y.toNat < x.toNat
        · simp [clLt, hxy, hyx] at h1
        · simp [clLt, hxy, hyx] at h1 h2
          exact ih bs h1 h2

theorem strLt_of_le_ne (a b : String) (hle : strLe a b = true) (hne : a ≠ b) :
    strLt a b = true :=
  clLt_of_le_ne a.data b.data hle (fun h => hne (String.ext h))

instance : IsTotal (String × Entry) rowLE where
  total := by
    intro x y
    unfold rowLE
    rcases Nat.lt_trichotomy (rowKey x).1 (rowKey y).1 with h | h | h
    · left; exact Or.inl h
    · rcases clLe_total (rowKey x).2.data (rowKey y).2.data with hs | hs
      · left; exact Or.inr ⟨h, hs⟩
      · right; exact Or.inr ⟨h.symm, hs⟩
    · right; exact Or.inl h

instance : IsTrans (String × Entry) rowLE where
  trans := by
    intro x y z hxy hyz
    unfold rowLE at hxy hyz ⊢
    rcases hxy with h1 | ⟨h1, hs1⟩
    · rcases hyz with h2 | ⟨h2, hs2⟩
      · exact Or.inl (Nat.lt_trans h1 h2)
      · exact Or.inl (h2 ▸ h1)
    · rcases hyz with h2 | ⟨h2, hs2⟩
      · exact Or.inl (h1 ▸ h2)
      · exact Or.inr ⟨h1.trans h2, clLe_trans _ _ _ hs1 hs2⟩

instance : IsAntisymm (String × Entry) rowLT where
  antisymm := by
    intro x y h1 h2
    exfalso
    unfold rowLT at h1 h2
    rcases h1 with h1 | ⟨h1e, h1s⟩ <;> rcases h2 with h2 | ⟨h2e, h2s⟩
    · omega
    · omega
    · omega
    · exact clLt_asymm _ _ h1s h2s

theorem rowLT_of_rowLE_ne (x y : String × Entry) (h : rowLE x y) (hne : x.1 ≠ y.1) :
    rowLT x y := by
  unfold rowLE at h
  unfold rowLT
  rcases h with h | ⟨he, hs⟩
  · exact Or.inl h
  · exact Or.inr ⟨he, strLt_of_le_ne _ _ hs hne⟩

/-! ## Characterisation of the order-initialisation loop -/

theorem orderVal_update (e : Entry) (v : Nat) :
    orderVal { e with kicking_order := some v } = v := rfl

theorem initUpd_fst (names : List String) (k : Nat) (pe : String × Entry) :
    (initUpd names k pe).1 = pe.1 := by
  unfold initUpd
  by_cases h : pe.1 ∈ names
  · rw [if_pos h]
  · rw [if_neg h]

theorem initUpd_status (names : List String) (k : Nat) (pe : String × Entry) :
    (initUpd names k pe).2.status = pe.2.status := by
  unfold initUpd
  by_cases h : pe.1 ∈ names
  · rw [if_pos h]
  · rw [if_neg h]

theorem initUpd_idem (names : List String) (k : Nat) (pe : String × Entry) :
    initUpd names k (initUpd names k pe) = initUpd names k pe := by
  unfold initUpd
  by_cases h : pe.1 ∈ names
  · rw [if_pos h, if_pos h]
  · rw [if_neg h, if_neg h]

theorem applyOrderList_eq (names : List String) (hnd : names.Nodup) :
    ∀ (s : Ledger) (k : Nat), applyOrderList s names k = List.map (initUpd names k) s := by
  induction names with
  | nil =>
    intro s k
    unfold applyOrderList
    exact (List.map_id'' (fun pe => by unfold initUpd; simp) s).symm
  | cons n rest ih =>
    intro s k
    obtain ⟨hn_notin, hrest_nd⟩ := List.nodup_cons.mp hnd
    unfold applyOrderList
    rw [ih hrest_nd (setOrder s n (some k)) (k + 1)]
    unfold setOrder
    rw [List.map_map]
    apply List.map_congr_left
    intro pe _
    show initUpd rest (k + 1)
        (if pe.1 = n then (pe.1, { pe.2 with kicking_order := some k }) else pe) =
      initUpd (n :: rest) k pe
    by_cases hn : pe.1 = n
    · rw [if_pos hn]
      unfold initUpd
      have h1 : ¬ (pe.1 ∈ rest) := by rw [hn]; exact hn_notin
      rw [if_neg h1]
      have h2 : pe.1 ∈ n :: rest := by rw [hn]; exact List.mem_cons_self n rest
      rw [if_pos h2]
      have h3 : List.indexOf pe.1 (n :: rest) = 0 := by
        rw [hn]; exact List.indexOf_cons_self n rest
      rw [h3, Nat.add_zero]
    · rw [if_neg hn]
      unfold initUpd
      by_cases hr : pe.1 ∈ rest
      · rw [if_pos hr, if_pos (List.mem_cons_of_mem n hr)]
        have h4 : List.indexOf pe.1 (n :: rest) = (List.indexOf pe.1 rest).succ :=
          List.indexOf_cons_ne rest (fun h => hn h.symm)
        rw [h4]
        have h5 : k + 1 + List.indexOf pe.1 rest = k + (List.indexOf pe.1 rest).succ := by omega
        rw [h5]
      · rw [if_neg hr]
        have h6 : ¬ pe.1 ∈ n :: rest := by
          intro hmem
          rcases List.mem_cons.mp hmem with h | h
          · exact hn h
          · exact hr h
        rw [if_neg h6]

theorem map_fst_map_initUpd (s : Ledger) (names : List String) (k : Nat) :
    List.map Prod.fst (List.map (initUpd names k) s) = List.map Prod.fst s := by
  rw [List.map_map]
  exact List.map_congr_left (fun pe _ => initUpd_fst names k pe)

theorem listIn_map_initUpd (s : Ledger) (names : List String) (k : Nat) :
    listIn (List.map (initUpd names k) s) = List.map (initUpd names k) (listIn s) := by
  unfold listIn
  rw [List.filter_map]
  congr 1
  apply List.filter_congr
  intro pe _
  simp [Function.comp, initUpd_status]

theorem list_in_order_nodup (s : Ledger) (hk : (List.map Prod.fst s).Nodup) :
    (list_in_order s).Nodup := by
  unfold list_in_order sortedIn
  have hperm := List.Perm.map Prod.fst (List.perm_insertionSort rowLE (listIn s))
  apply hperm.nodup_iff.mpr
  exact List.Nodup.sublist (List.Sublist.map Prod.fst (List.filter_sublist s)) hk

theorem backfill_of_not_needs (t : Ledger) (h : ¬ needsInit t = true) :
    backfill_orders t = t := by
  unfold backfill_orders
  rw [if_neg h]

theorem backfill_of_needs (t : Ledger) (h : needsInit t = true) :
    backfill_orders t = applyOrderList t (list_in_order t) 1 := by
  unfold backfill_orders
  rw [if_pos h]

theorem backfill_eq_map (s : Ledger) (hk : (List.map Prod.fst s).Nodup)
    (hn : needsInit s = true) :
    backfill_orders s = List.map (initUpd (list_in_order s) 1) s := by
  rw [backfill_of_needs s hn]
  exact applyOrderList_eq _ (list_in_order_nodup s hk) s 1

theorem sortedIn_getElem_fst (s : Ledger) (hk : (List.map Prod.fst s).Nodup)
    (n : Nat) (h : n < (sortedIn s).length) :
    (sortedIn s)[n].1 ∈ list_in_order s ∧
    List.indexOf (sortedIn s)[n].1 (list_in_order s) = n := by
  have hlen : n < (list_in_order s).length := by
    unfold list_in_order
    rw [List.length_map]
    exact h
  have hgw : (list_in_order s)[n] = (sortedIn s)[n].1 := by
    unfold list_in_order
    exact List.getElem_map Prod.fst
  constructor
  · rw [← hgw]
    exact List.getElem_mem hlen
  · rw [← hgw]
    exact List.indexOf_getElem (list_in_order_nodup s hk) n hlen

theorem pairwise_rowLT_map_initUpd (s : Ledger) (hk : (List.map Prod.fst s).Nodup) :
    List.Pairwise rowLT (List.map (initUpd (list_in_order s) 1) (sortedIn s)) := by
  rw [List.pairwise_map, List.pairwise_iff_getElem]
  intro i j hi hj hij
  obtain ⟨hmi, hii⟩ := sortedIn_getElem_fst s hk i hi
  obtain ⟨hmj, hjj⟩ := sortedIn_getElem_fst s hk j hj
  unfold initUpd
  rw [if_pos hmi, if_pos hmj]
  simp only [rowLT, rowKey]
  left
  rw [orderVal_update, orderVal_update, hii, hjj]
  omega

theorem pairwise_rowLT_sortedIn (s : Ledger) (hk : (List.map Prod.fst s).Nodup) :
    List.Pairwise rowLT (sortedIn s) := by
  have hle : List.Pairwise rowLE (sortedIn s) := List.sorted_insertionSort rowLE (listIn s)
  have hnd : (List.map Prod.fst (sortedIn s)).Nodup := list_in_order_nodup s hk
  have hne : List.Pairwise (fun a b : String × Entry => a.1 ≠ b.1) (sortedIn s) :=
    List.pairwise_map.mp hnd
  exact (hle.and hne).imp (fun hab => rowLT_of_rowLE_ne _ _ hab.1 hab.2)

theorem sortedIn_backfill (s : Ledger) (hk : (List.map Prod.fst s).Nodup)
    (hn : needsInit s = true) :
    sortedIn (backfill_orders s) = List.map (initUpd (list_in_order s) 1) (sortedIn s) := by
  have hbf := backfill_eq_map s hk hn
  have hperm : List.Perm (sortedIn (backfill_orders s))
      (List.map (initUpd (list_in_order s) 1) (sortedIn s)) := by
    have h1 : List.Perm (sortedIn (backfill_orders s)) (listIn (backfill_orders s)) :=
      List.perm_insertionSort rowLE _
    have h2 : listIn (backfill_orders s) = List.map (initUpd (list_in_order s) 1) (listIn s) := by
      rw [hbf, listIn_map_initUpd]
    rw [h2] at h1
    exact h1.trans (List.Perm.map _ (List.perm_insertionSort rowLE (listIn s)).symm)
  have hs1 : List.Pairwise rowLT (sortedIn (backfill_orders s)) := by
    apply pairwise_rowLT_sortedIn
    rw [hbf, map_fst_map_initUpd]
    exact hk
  have hs2 : List.Pairwise rowLT (List.map (initUpd (list_in_order s) 1) (sortedIn s)) :=
    pairwise_rowLT_map_initUpd s hk
  exact List.eq_of_perm_of_sorted hperm hs1 hs2

theorem list_in_order_backfill (s : Ledger) (hk : (List.map Prod.fst s).Nodup)
    (hn : needsInit s = true) :
    list_in_order (backfill_orders s) = list_in_order s := by
  unfold list_in_order
  rw [sortedIn_backfill s hk hn]
  exact map_fst_map_initUpd (sortedIn s) _ _

theorem orders_backfill (s : Ledger) (hk : (List.map Prod.fst s).Nodup)
    (hn : needsInit s = true) :
    List.map (fun pe => pe.2.kicking_order) (sortedIn (backfill_orders s)) =
      List.map some (List.range' 1 (listIn s).length) := by
  rw [sortedIn_backfill s hk hn, List.map_map]
  apply List.ext_getElem
  · rw [List.length_map, List.length_map, List.length_range']
    unfold sortedIn
    exact List.length_insertionSort rowLE (listIn s)
  · intro n h1 h2
    rw [List.getElem_map, List.getElem_map, List.getElem_range']
    have hlen : n < (sortedIn s).length := by
      rw [List.length_map] at h1
      exact h1
    obtain ⟨hm, hidx⟩ := sortedIn_getElem_fst s hk n hlen
    show (initUpd (list_in_order s) 1 (sortedIn s)[n]).2.kicking_order = some (1 + 1 * n)
    unfold initUpd
    rw [if_pos hm]
    show some (1 + List.indexOf (sortedIn s)[n].1 (list_in_order s)) = some (1 + 1 * n)
    rw [hidx, Nat.one_mul]

/-! ## Theorems for claims C2 and C5 -/

/-- Counterexample to claim C2 as stated: start from Alice/Bob/Carol with
orders backfilled to 1,2,3, then toggle Bob OUT.  The remaining IN
entries carry orders 1 and 3 while N = 2 — not a permutation of 1..2:
the permutation property does not survive subsequent `set_status`
toggles. -/
theorem claim_C2_counterexample :
    ¬ (List.map (fun pe => pe.2.kicking_order) (sortedIn ledgerAC)).Perm
        (List.map some (List.range' 1 (listIn ledgerAC).length)) := by
  decide

/-- Claim C2, amended: whenever the backfill block actually fires (some IN
entry lacks an order), the kicking orders of the IN entries immediately
afterwards form a permutation of `1..N` (in fact exactly the sequence
`1, ..., N` along the sorted order); the names hypothesis is the
`UNIQUE(game_id, player_name)` constraint.  Subsequent OUT toggles can
break the property (see the counterexample). -/
theorem claim_C2 (s : Ledger) (hk : (List.map Prod.fst s).Nodup)
    (hn : needsInit s = true) :
    (List.map (fun pe => pe.2.kicking_order) (sortedIn (backfill_orders s))).Perm
      (List.map some (List.range' 1 (listIn (backfill_orders s)).length)) := by
  have hlen : (listIn (backfill_orders s)).length = (listIn s).length := by
    rw [backfill_eq_map s hk hn, listIn_map_initUpd, List.length_map]
  rw [hlen, orders_backfill s hk hn]

/-- Witness for (amended) claim C2: the Alice/Bob/Carol ledger with no
orders triggers the backfill and ends with orders forming 1..3. -/
theorem claim_C2_witness :
    (List.map Prod.fst ledgerABC).Nodup ∧ needsInit ledgerABC = true ∧
    (List.map (fun pe => pe.2.kicking_order) (sortedIn (backfill_orders ledgerABC))).Perm
      (List.map some (List.range' 1 (listIn (backfill_orders ledgerABC)).length)) :=
  ⟨by decide, by decide, claim_C2 ledgerABC (by decide) (by decide)⟩

/-- Claim C5: when some IN entry lacks a kicking order, `backfill_orders`
assigns the sequential orders `1..N` following the current
`(order-if-present, else name)` sort — the sorted name sequence is
unchanged and the sorted order values become exactly `1, ..., N` — and
the operation is idempotent: a second run changes nothing. -/
theorem claim_C5 (s : Ledger) (hk : (List.map Prod.fst s).Nodup) :
    (needsInit s = true →
      list_in_order (backfill_orders s) = list_in_order s ∧
      List.map (fun pe => pe.2.kicking_order) (sortedIn (backfill_orders s)) =
        List.map some (List.range' 1 (listIn s).length)) ∧
    backfill_orders (backfill_orders s) = backfill_orders s := by
  refine ⟨fun hn => ⟨list_in_order_backfill s hk hn, orders_backfill s hk hn⟩, ?_⟩
  by_cases hn : needsInit s = true
  · have hbf := backfill_eq_map s hk hn
    have hk2 : (List.map Prod.fst (backfill_orders s)).Nodup := by
      rw [hbf, map_fst_map_initUpd]
      exact hk
    by_cases hn2 : needsInit (backfill_orders s) = true
    · rw [backfill_of_needs _ hn2]
      rw [applyOrderList_eq (list_in_order (backfill_orders s)) (list_in_order_nodup _ hk2) _ 1]
      rw [list_in_order_backfill s hk hn]
      rw [hbf, List.map_map]
      exact List.map_congr_left (fun pe _ => initUpd_idem _ 1 pe)
    · exact backfill_of_not_needs _ hn2
  · have h := backfill_of_not_needs s hn
    rw [h]
    exact h

/-- Witness for claim C5: running the backfill twice on the
Alice/Bob/Carol ledger changes nothing the second time. -/
theorem claim_C5_witness :
    (List.map Prod.fst ledgerABC).Nodup ∧
    backfill_orders (backfill_orders ledgerABC) = backfill_orders ledgerABC :=
  ⟨by decide, (claim_C5 ledgerABC (by decide)).2⟩

/-! ## Swap and move lemmas (claim C6) -/

theorem lookup_of_mem_nodup (s : Ledger) (hk : (List.map Prod.fst s).Nodup)
    (pe : String × Entry) (hpe : pe ∈ s) : lookupEntry s pe.1 = some pe.2 := by
  induction s with
  | nil => cases hpe
  | cons x t ih =>
    rw [List.map_cons, List.nodup_cons] at hk
    obtain ⟨hx_notin, ht⟩ := hk
    rcases List.mem_cons.mp hpe with h | h
    · rw [h, lookupEntry_cons, if_pos rfl]
    · have hxne : ¬ x.1 = pe.1 := by
        intro he
        exact hx_notin (he ▸ List.mem_map.mpr ⟨pe, h, rfl⟩)
      rw [lookupEntry_cons, if_neg hxne]
      exact ih ht h

theorem kickOrder_swap_left (s : Ledger) (a b : String) (ha : hasEntry s a = true) :
    kickOrder (swap_order s a b) a = kickOrder s b := by
  obtain ⟨ea, hea⟩ := hasEntry_true_lookup s a ha
  by_cases hab : a = b
  · subst hab
    show kickOrder (setOrder (setOrder s a (kickOrder s a)) a (kickOrder s a)) a = kickOrder s a
    unfold kickOrder
    rw [lookup_setOrder, if_pos rfl, lookup_setOrder, if_pos rfl, hea]
    rfl
  · show kickOrder (setOrder (setOrder s a (kickOrder s b)) b (kickOrder s a)) a = kickOrder s b
    unfold kickOrder
    rw [lookup_setOrder, if_neg hab, lookup_setOrder, if_pos rfl, hea]
    rfl

theorem kickOrder_swap_right (s : Ledger) (a b : String) (hb : hasEntry s b = true) :
    kickOrder (swap_order s a b) b = kickOrder s a := by
  obtain ⟨eb, heb⟩ := hasEntry_true_lookup s b hb
  by_cases hab : a = b
  · subst hab
    show kickOrder (setOrder (setOrder s a (kickOrder s a)) a (kickOrder s a)) a = kickOrder s a
    unfold kickOrder
    rw [lookup_setOrder, if_pos rfl, lookup_setOrder, if_pos rfl, heb]
    rfl
  · show kickOrder (setOrder (setOrder s a (kickOrder s b)) b (kickOrder s a)) b = kickOrder s a
    unfold kickOrder
    rw [lookup_setOrder, if_pos rfl, lookup_setOrder, if_neg (fun h => hab h.symm), heb]
    rfl

theorem lookup_swap_other (s : Ledger) (a b c : String) (hca : c ≠ a) (hcb : c ≠ b) :
    lookupEntry (swap_order s a b) c = lookupEntry s c := by
  show lookupEntry (setOrder (setOrder s a (kickOrder s b)) b (kickOrder s a)) c = lookupEntry s c
  rw [lookup_setOrder, if_neg hcb, lookup_setOrder, if_neg hca]

theorem swap_swap (s : Ledger) (a b : String) (hk : (List.map Prod.fst s).Nodup)
    (ha : hasEntry s a = true) (hb : hasEntry s b = true) :
    swap_order (swap_order s a b) a b = s := by
  have hoa := kickOrder_swap_left s a b ha
  have hob := kickOrder_swap_right s a b hb
  show setOrder (setOrder (swap_order s a b) a (kickOrder (swap_order s a b) b)) b
      (kickOrder (swap_order s a b) a) = s
  rw [hoa, hob]
  show setOrder (setOrder (setOrder (setOrder s a (kickOrder s b)) b (kickOrder s a)) a
      (kickOrder s a)) b (kickOrder s b) = s
  unfold setOrder
  rw [List.map_map, List.map_map, List.map_map]
  refine (List.map_congr_left ?_).trans (List.map_id' s)
  intro pe hpe
  simp only [Function.comp]
  obtain ⟨nm, e⟩ := pe
  obtain ⟨st, sub, ko⟩ := e
  by_cases hpa : nm = a
  · have hkoa : kickOrder s a = ko := by
      unfold kickOrder
      rw [← hpa, lookup_of_mem_nodup s hk (nm, ⟨st, sub, ko⟩) hpe]
      rfl
    subst hpa
    by_cases hpb : nm = b
    · subst hpb
      simp [hkoa]
    · simp [hpb, hkoa]
  · by_cases hpb : nm = b
    · have hkob : kickOrder s b = ko := by
        unfold kickOrder
        rw [← hpb, lookup_of_mem_nodup s hk (nm, ⟨st, sub, ko⟩) hpe]
        rfl
      subst hpb
      simp [hpa, hkob]
    · simp [hpa, hpb]

theorem indexOf_append_singleton (l : List String) (p : String) (h : p ∉ l) :
    List.indexOf p (l ++ [p]) = l.length := by
  induction l with
  | nil => exact List.indexOf_cons_self p []
  | cons x t ih =>
    have hx : x ≠ p := fun hh => h (hh ▸ List.mem_cons_self x t)
    rw [List.cons_append, List.indexOf_cons_ne _ hx,
      ih (fun hm => h (List.mem_cons_of_mem x hm))]
    rfl

theorem moveUp_first (s : Ledger) (p : String) (hh : (list_in_order s).head? = some p) :
    moveUp s p = s := by
  obtain ⟨t, ht⟩ := List.head?_eq_some_iff.mp hh
  simp only [moveUp]
  rw [ht, List.indexOf_cons_self]
  rw [if_neg (fun hcond => Nat.lt_irrefl 0 hcond.1)]

theorem moveUp_swap (s : Ledger) (p : String) (i : Nat)
    (hidx : List.indexOf p (list_in_order s) = i) (h0 : 0 < i)
    (hlen : i < (list_in_order s).length) :
    moveUp s p = swap_order s p ((list_in_order s).getD (i - 1) "") := by
  simp only [moveUp]
  rw [hidx, if_pos ⟨h0, hlen⟩]

theorem moveDown_last (s : Ledger) (p : String) (hk : (List.map Prod.fst s).Nodup)
    (hh : (list_in_order s).getLast? = some p) :
    moveDown s p = s := by
  obtain ⟨l2, hl⟩ := List.getLast?_eq_some_iff.mp hh
  have hnd : (list_in_order s).Nodup := list_in_order_nodup s hk
  rw [hl] at hnd
  rw [List.nodup_append] at hnd
  have hpnot : p ∉ l2 := fun hm => hnd.2.2 hm (List.mem_singleton_self p)
  simp only [moveDown]
  rw [hl, indexOf_append_singleton l2 p hpnot]
  rw [if_neg (by simp only [List.length_append, List.length_singleton]; omega)]

theorem moveDown_swap (s : Ledger) (p : String) (i : Nat)
    (hidx : List.indexOf p (list_in_order s) = i)
    (hlen : i + 1 < (list_in_order s).length) :
    moveDown s p = swap_order s p ((list_in_order s).getD (i + 1) "") := by
  simp only [moveDown]
  rw [hidx, if_pos hlen]

/-! ## Theorem for claim C6 -/

/-- Claim C6: `swap_order(G, A, B)` exchanges the two players' kicking
orders (touching no third player's row) and is its own inverse; the
"move up" button swaps a player with its immediate predecessor in
`list_in_order` and is a no-op on the first player; "move down" is
symmetric, a no-op on the last player.  The `Nodup` hypothesis is the
`UNIQUE(game_id, player_name)` constraint; `A` and `B` must have rows,
as the handlers read their orders with an unguarded `fetchone()`. -/
theorem claim_C6 (s : Ledger) (a b p c : String) (i : Nat)
    (hk : (List.map Prod.fst s).Nodup)
    (ha : hasEntry s a = true) (hb : hasEntry s b = true)
    (hca : c ≠ a) (hcb : c ≠ b) :
    kickOrder (swap_order s a b) a = kickOrder s b ∧
    kickOrder (swap_order s a b) b = kickOrder s a ∧
    lookupEntry (swap_order s a b) c = lookupEntry s c ∧
    swap_order (swap_order s a b) a b = s ∧
    ((list_in_order s).head? = some p → moveUp s p = s) ∧
    (List.indexOf p (list_in_order s) = i → 0 < i → i < (list_in_order s).length →
      moveUp s p = swap_order s p ((list_in_order s).getD (i - 1) "")) ∧
    ((list_in_order s).getLast? = some p → moveDown s p = s) ∧
    (List.indexOf p (list_in_order s) = i → i + 1 < (list_in_order s).length →
      moveDown s p = swap_order s p ((list_in_order s).getD (i + 1) "")) :=
  ⟨kickOrder_swap_left s a b ha,
   kickOrder_swap_right s a b hb,
   lookup_swap_other s a b c hca hcb,
   swap_swap s a b hk ha hb,
   fun hh => moveUp_first s p hh,
   fun hidx h0 hlen => moveUp_swap s p i hidx h0 hlen,
   fun hh => moveDown_last s p hk hh,
   fun hidx hlen => moveDown_swap s p i hidx hlen⟩

/-- Witness for claim C6 on the ledger Alice(1), Bob(2), Carol(3):
swapping Alice and Bob exchanges orders 1 and 2, leaves Carol alone, and
undoes itself; move-up on Alice (first) and move-down on Carol (last)
are no-ops; move-up and move-down on Bob swap with the neighbours. -/
theorem claim_C6_witness :
    kickOrder (swap_order ledgerABC' "Alice" "Bob") "Alice" = kickOrder ledgerABC' "Bob" ∧
    kickOrder (swap_order ledgerABC' "Alice" "Bob") "Bob" = kickOrder ledgerABC' "Alice" ∧
    lookupEntry (swap_order ledgerABC' "Alice" "Bob") "Carol" = lookupEntry ledgerABC' "Carol" ∧
    swap_order (swap_order ledgerABC' "Alice" "Bob") "Alice" "Bob" = ledgerABC' ∧
    moveUp ledgerABC' "Alice" = ledgerABC' ∧
    moveUp ledgerABC' "Bob" =
      swap_order ledgerABC' "Bob" ((list_in_order ledgerABC').getD 0 "") ∧
    moveDown ledgerABC' "Carol" = ledgerABC' ∧
    moveDown ledgerABC' "Bob" =
      swap_order ledgerABC' "Bob" ((list_in_order ledgerABC').getD 2 "") := by
  have h := claim_C6 ledgerABC' "Alice" "Bob" "Bob" "Carol" 1
    (by decide) (by decide) (by decide) (by decide) (by decide)
  refine ⟨h.1, h.2.1, h.2.2.1, h.2.2.2.1, ?_, ?_, ?_, ?_⟩
  · exact (claim_C6 ledgerABC' "Alice" "Bob" "Alice" "Carol" 0
      (by decide) (by decide) (by decide) (by decide) (by decide)).2.2.2.2.1 (by decide)
  · exact h.2.2.2.2.2.1 (by decide) (by decide) (by decide)
  · exact (claim_C6 ledgerABC' "Alice" "Bob" "Carol" "Dave" 2
      (by decide) (by decide) (by decide) (by decide) (by decide)).2.2.2.2.2.2.1 (by decide)
  · exact h.2.2.2.2.2.2.2 (by decide) (by decide)
